import Mathlib

/-!
Verification of the session/trigger/notification orchestration core of the
`jobs` personal-assistant bot against its natural-language specification.

Shallow embedding conventions:
* Python strings are embedded as `List Char` (one element per code point, so
  `len`, slicing and `in` translate to `List.length`, `List.take` and infix
  containment on the character list, exactly as Python operates on code
  points).
* Python `str.strip()` is `pytrim` (drop whitespace from both ends),
  `str.replace(old, new)` is `pyreplace` (leftmost, non-overlapping),
  `old in s` is `listInfix old s`.
* `async` functions that can raise are embedded as `Except String`-valued
  functions; external collaborators (users repository, transport,
  reasoning backend) are oracles passed in as explicit arguments, so one
  Lean input enumerates one concrete interaction of the code with its
  collaborators.
* Every outward-visible action (transport send, owner-history buffering,
  ephemeral-session create/destroy) is recorded in an event trace so that
  "no message reaches the transport" style properties are statements about
  the trace.
-/

/-! ## Python string primitives -/

/-- Python `str.strip()`: remove whitespace characters from both ends. -/
def pytrim (s : List Char) : List Char :=
  (((s.dropWhile Char.isWhitespace).reverse).dropWhile Char.isWhitespace).reverse

/-- Fuel-driven worker for `pyreplace` (structural recursion on the fuel so
that concrete evaluations reduce definitionally). -/
def pyreplaceFuel : Nat → List Char → List Char → List Char → List Char
  | 0, s, _, _ => s
  | fuel + 1, s, old, new =>
    match s with
    | [] => []
    | c :: rest =>
      if old ≠ [] ∧ old.isPrefixOf (c :: rest) then
        new ++ pyreplaceFuel fuel ((c :: rest).drop old.length) old new
      else
        c :: pyreplaceFuel fuel rest old new

/-- Python `s.replace(old, new)`: replace non-overlapping occurrences of
`old` left to right.  (Only ever invoked with `old ≠ []` in this
development, mirroring the truthiness guards in the source.) -/
def pyreplace (s old new : List Char) : List Char :=
  pyreplaceFuel s.length s old new

/-- Python `old in s` for strings: substring containment. -/
def listInfix (old s : List Char) : Bool :=
  s.tails.any (fun t => old.isPrefixOf t)

instance {ε α : Type} [DecidableEq ε] [DecidableEq α] :
    DecidableEq (Except ε α) := fun a b =>
  match a, b with
  | .ok x, .ok y =>
    if h : x = y then isTrue (by rw [h]) else isFalse (fun hh => h (Except.ok.inj hh))
  | .error x, .error y =>
    if h : x = y then isTrue (by rw [h]) else isFalse (fun hh => h (Except.error.inj hh))
  | .ok _, .error _ => isFalse (by intro hh; exact Except.noConfusion hh)
  | .error _, .ok _ => isFalse (by intro hh; exact Except.noConfusion hh)

/-! ## RecipientGate (`src/telegram/whitelist.py`)

`validate_recipient` / `validate_recipient_by_id` consult the users
repository; `src/users/repository.py` itself is not in the sources, so the
three repository operations used by the gate are modelled from the spec
(`RecipientIdentity: platform id, role, whitelisted flag, banned flag`).
The gate's own control flow is translated line by line from
`whitelist.py`. -/

/-- Modelled from the spec: one row of the users repository as the gate
sees it — `is_whitelisted` / `is_banned` flags plus the stored username
(`src/users/repository.py` is absent from the sources; field shape follows
`ExternalUser` in `src/users/models.py`). -/
structure RepoUser where
  whitelisted : Bool
  banned : Bool
  username : Option String
deriving DecidableEq, Repr

/-- Users repository state: association of telegram id to stored row. -/
def GateState := List (Int × RepoUser)

instance : DecidableEq GateState := by
  unfold GateState
  infer_instance

/-- Modelled from the spec: `repo.get_user(user_id)` — lookup by id. -/
def repoGet : GateState → Int → Option RepoUser
  | [], _ => none
  | (k, u) :: rest, i => if i = k then some u else repoGet rest i

/-- Modelled from the spec: `repo.upsert_user(telegram_id, username)` —
insert a fresh non-whitelisted, non-banned row if absent, else refresh the
username. -/
def repoUpsert : GateState → Int → Option String → GateState
  | [], i, un => [(i, ⟨false, false, un⟩)]
  | (k, u) :: rest, i, un =>
    if i = k then (k, { u with username := un }) :: rest
    else (k, u) :: repoUpsert rest i un

/-- Modelled from the spec: `repo.whitelist_user(user_id)` — set the
`is_whitelisted` flag on the matching row. -/
def repoWhitelist : GateState → Int → GateState
  | [], _ => []
  | (k, u) :: rest, i =>
    if i = k then (k, { u with whitelisted := true }) :: rest
    else (k, u) :: repoWhitelist rest i

/-- Modelled from the spec: `repo.is_user_whitelisted(user_id)`. -/
def isUserWhitelisted (st : GateState) (i : Int) : Bool :=
  match repoGet st i with
  | some u => u.whitelisted
  | none => false

/-- Function `_auto_whitelist(user_id, username)` from `whitelist.py`: fetch the
user; upsert if missing; then, unless the originally fetched row was
already whitelisted, set the whitelist flag. -/
def autoWhitelist (st : GateState) (i : Int) (un : Option String) : GateState :=
  let user := repoGet st i
  let st1 := if user = none then repoUpsert st i un else st
  if ¬(user.isSome ∧ (user.map RepoUser.whitelisted).getD false) then
    repoWhitelist st1 i
  else
    st1

/-- Telethon entity shapes distinguished by `validate_recipient`. -/
inductive TgEntity
  | user (id : Int) (username : Option String)
  | channel (id : Int)
  | chat (id : Int)
  | other (typeName : String)
deriving DecidableEq, Repr

/-- Function `validate_recipient(entity)` from `whitelist.py`: owner → allowed;
channel/group → allowed; individual user → auto-whitelisted if needed and
allowed; unknown entity type → logged and allowed.  Returns the updated
repository state plus the `(allowed, reason)` pair. -/
def validateRecipient (ownerId : Int) (st : GateState) (e : TgEntity) :
    GateState × Bool × String :=
  match e with
  | .user i un =>
    if i = ownerId then (st, true, "owner")
    else if isUserWhitelisted st i then (st, true, "whitelisted")
    else (autoWhitelist st i un, true, "whitelisted")
  | .channel _ => (st, true, "channel/group")
  | .chat _ => (st, true, "channel/group")
  | .other tn => (st, true, "unknown entity type (allowed): " ++ tn)

/-- Function `validate_recipient_by_id(user_id)` from `whitelist.py`. -/
def validateRecipientById (ownerId : Int) (st : GateState) (i : Int) :
    GateState × Bool × String :=
  if i = ownerId then (st, true, "owner")
  else if isUserWhitelisted st i then (st, true, "whitelisted")
  else (autoWhitelist st i none, true, "whitelisted")

/-- A repository state holding exactly one banned, non-whitelisted user
with id 42 (owner id is 1 throughout the concrete gate examples). -/
def bannedState : GateState := [(42, ⟨false, true, none⟩)]

/-- C1 counterexample: recipient 42 is banned in the repository, yet both
`validate_recipient` and `validate_recipient_by_id` answer allowed — the
gate never consults the ban flag, contradicting the claim that a banned
individual user is never allowed. -/
theorem validate_banned_allowed_cx :
    repoGet bannedState 42 = some ⟨false, true, none⟩ ∧
    (validateRecipient 1 bannedState (.user 42 none)).2.1 = true ∧
    (validateRecipientById 1 bannedState 42).2.1 = true := by
  refine ⟨rfl, rfl, rfl⟩

/-- C1 (amended): `validate_recipient` and `validate_recipient_by_id`
return allowed for every recipient — the owner (reason "owner"),
any group or channel (reason "channel/group"), and every individual user
including banned ones; ban state is never consulted, the gate is a
registry that auto-whitelists on first outgoing contact, not a blocker. -/
theorem validate_always_allowed (ownerId : Int) (st : GateState)
    (e : TgEntity) (i : Int) :
    (validateRecipient ownerId st e).2.1 = true ∧
    (validateRecipientById ownerId st i).2.1 = true ∧
    (validateRecipient ownerId st (.user ownerId none)).2.2 = "owner" ∧
    (validateRecipient ownerId st (.channel i)).2.2 = "channel/group" ∧
    (validateRecipient ownerId st (.chat i)).2.2 = "channel/group" := by
  refine ⟨?_, ?_, ?_, ?_, ?_⟩
  · cases e with
    | user i un =>
      simp only [validateRecipient]
      split <;> [rfl; (split <;> rfl)]
    | channel _ => rfl
    | chat _ => rfl
    | other _ => rfl
  · simp only [validateRecipientById]
    split <;> [rfl; (split <;> rfl)]
  · simp [validateRecipient]
  · rfl
  · rfl

/-! ## UserSession.query (`src/users/session_manager.py`)

`query` opens one backend turn, concatenates the text blocks of the
assistant messages it receives, and on a `ResultMessage` carrying a truthy
`session_id` overwrites both the in-memory token and the persisted token
file.  The whole turn sits inside one `try/except Exception` that turns
any exception into the string `"❌ Ошибка: {e}"`.  A backend run is
embedded as the list of messages the loop processed before the turn ended,
plus `some e` when an exception interrupted the call at that point (an
exception may strike before, between, or after messages — including after
the completion event, e.g. while tearing the client down). -/

/-- The message shapes `query` dispatches on: a text block of an assistant
message, a tool-use block, or the terminal `ResultMessage` with its
optional `session_id`. -/
inductive AgentMsg
  | text (s : String)
  | toolUse (name : String)
  | result (sessionId : Option String)
deriving DecidableEq, Repr

/-- In-memory `self._session_id` paired with the persisted token file
(`none` = file absent / start fresh). -/
structure TokenState where
  mem : Option String
  persisted : Option String
deriving DecidableEq, Repr

/-- Effect of processing one message in `query`'s receive loop: a
`ResultMessage` whose `session_id` is truthy overwrites both tokens
(`self._session_id = ...; self._save_session_id(...)`); everything else
leaves them alone. -/
def stepMsg (st : TokenState) (m : AgentMsg) : TokenState :=
  match m with
  | .result (some sid) => if sid.isEmpty then st else ⟨some sid, some sid⟩
  | _ => st

/-- Python `"".join(text_parts)`: concatenation of the text blocks in emission
order. -/
def collectTexts (msgs : List AgentMsg) : String :=
  msgs.foldl (fun acc m => match m with | .text s => acc ++ s | _ => acc) ""

/-- Method `UserSession.query`: process the messages of the turn (updating the
token state), then either surface an interrupting exception as the
user-facing string `"❌ Ошибка: {e}"` (text parts discarded) or return the
concatenated text, substituting `"🤷 Нет ответа"` for an empty
concatenation. -/
def queryModel (st : TokenState) (msgs : List AgentMsg) (err : Option String) :
    TokenState × String :=
  let st1 := msgs.foldl stepMsg st
  match err with
  | some e => (st1, "❌ Ошибка: " ++ e)
  | none =>
    let t := collectTexts msgs
    (st1, if t = "" then "🤷 Нет ответа" else t)

/-- A message is a completion event carrying a truthy token. -/
def isTruthyResult : AgentMsg → Bool
  | .result (some sid) => !sid.isEmpty
  | _ => false

theorem foldl_stepMsg_no_result (st : TokenState) (msgs : List AgentMsg)
    (h : ∀ m ∈ msgs, isTruthyResult m = false) :
    msgs.foldl stepMsg st = st := by
  induction msgs generalizing st with
  | nil => rfl
  | cons m rest ih =>
    have hm : isTruthyResult m = false := h m (by simp)
    have hstep : stepMsg st m = st := by
      cases m with
      | text s => rfl
      | toolUse n => rfl
      | result sid =>
        cases sid with
        | none => rfl
        | some s =>
          simp only [isTruthyResult, Bool.not_eq_false'] at hm
          simp [stepMsg, hm]
    simp only [List.foldl_cons, hstep]
    exact ih st (fun m hmem => h m (by simp [hmem]))

/-- C3 counterexample: a turn whose completion event carries token "tok"
and which is then interrupted by an exception (e.g. during client
teardown or while persisting) returns the user-facing error string — a
failed call — yet both the in-memory and the persisted token have been
overwritten with "tok", contradicting the claim that a failed call leaves
both tokens unchanged. -/
theorem query_failed_token_mutated_cx :
    queryModel ⟨none, none⟩ [.result (some "tok")] (some "boom") =
      (⟨some "tok", some "tok"⟩, "❌ Ошибка: boom") ∧
    (⟨some "tok", some "tok"⟩ : TokenState) ≠ ⟨none, none⟩ := by
  exact ⟨rfl, by decide⟩

/-- C3 (amended): on a turn that completes successfully with a completion
event carrying token `tok`, both the in-memory and persisted token
afterwards equal `tok` regardless of what came before; on a failed call,
`query` returns the `"❌ Ошибка: ..."` string (never propagating the
exception — the embedding is a total function), and both tokens are
unchanged provided no completion event carrying a token had been processed
before the failure struck (if the failure strikes after the completion
event, that event's token has already been persisted, as the
counterexample shows). -/
theorem query_token_discipline (st : TokenState) (pre msgs : List AgentMsg)
    (tok e : String) :
    (tok ≠ "" →
      (queryModel st (pre ++ [.result (some tok)]) none).1 =
        ⟨some tok, some tok⟩) ∧
    ((∀ m ∈ msgs, isTruthyResult m = false) →
      queryModel st msgs (some e) = (st, "❌ Ошибка: " ++ e)) := by
  constructor
  · intro htok
    have hne : tok.isEmpty = false := by
      cases hh : tok.isEmpty
      · rfl
      · exact absurd ((String.isEmpty_iff tok).mp hh) htok
    simp [queryModel, List.foldl_append, stepMsg, hne]
  · intro hnone
    simp [queryModel, foldl_stepMsg_no_result st msgs hnone]

theorem query_token_discipline_w :
    ("tok" : String) ≠ "" ∧
    (∀ m ∈ ([.text "hi", .toolUse "bash"] : List AgentMsg),
      isTruthyResult m = false) ∧
    (queryModel ⟨none, some "old"⟩
        ([.text "hi"] ++ [.result (some "tok")]) none).1 =
      ⟨some "tok", some "tok"⟩ ∧
    queryModel ⟨none, some "old"⟩ [.text "hi", .toolUse "bash"]
        (some "net down") =
      (⟨none, some "old"⟩, "❌ Ошибка: " ++ "net down") := by
  refine ⟨by decide, by decide, ?_, ?_⟩
  · exact (query_token_discipline ⟨none, some "old"⟩ [.text "hi"]
      [.text "hi", .toolUse "bash"] "tok" "net down").1 (by decide)
  · exact (query_token_discipline ⟨none, some "old"⟩ [.text "hi"]
      [.text "hi", .toolUse "bash"] "tok" "net down").2 (by decide)

/-- C10: `query` never returns the empty string — a failed call returns
the non-empty `"❌ Ошибка: ..."` string, a turn with no text segments
returns the fixed placeholder `"🤷 Нет ответа"`, and any other turn
returns its (non-empty) concatenated text. -/
theorem query_never_empty (st : TokenState) (msgs : List AgentMsg)
    (err : Option String) : (queryModel st msgs err).2 ≠ "" := by
  cases err with
  | some e =>
    simp only [queryModel]
    intro h
    have hdata : ("❌ Ошибка: " ++ e).data = ("" : String).data := by rw [h]
    simp [String.data_append] at hdata
  | none =>
    simp only [queryModel]
    split
    · decide
    · assumption

/-! ## TriggerExecutor (`src/triggers/executor.py`)

`execute(event)` sends the preview (if any) unbuffered, runs the prompt
through a one-shot background session guarded by `try/finally destroy`,
then applies the silence / strip / `prefix` / truncate / deliver pipeline.
`TriggerEvent` itself (`src/triggers/models.py` is absent from the
sources) is modelled from the spec: source tag, prompt, optional preview
message, notify-owner flag, optional silence-marker literal, optional
result `prefix`.  The backend call is an oracle `Except String (List Char)`
(`.error` = the query raised, `.ok` = the reply text), and every
outward action lands in the event trace. -/

/-- MAX_MESSAGE_LENGTH from `executor.py` (the same constant appears in
`heartbeat.py`). -/
def MAX_MESSAGE_LENGTH : Nat := 4000

/-- Outward-visible events of one execution: transport send to a
recipient id, a failed transport send, buffering into the owner session
(`receive_incoming`), and ephemeral-session create/destroy. -/
inductive Ev
  | sent (recipient : Int) (text : List Char)
  | sendFailed (recipient : Int)
  | buffered (text : List Char)
  | create
  | destroy
deriving DecidableEq, Repr

/-- Modelled from the spec: `TriggerEvent` — source tag, prompt, optional
preview message, notify-owner flag, optional silence-marker literal,
optional result `prefix` (`src/triggers/models.py` is not in the sources;
the field set is exactly the one `executor.py` reads). -/
structure TriggerEvent where
  source : String
  prompt : String
  previewMessage : Option (List Char)
  notifyOwner : Bool
  silentMarker : Option (List Char)
  resultPfx : Option (List Char)
deriving DecidableEq, Repr

/-- Method `send_to_owner(text, buffer)`: one transport send to the owner, plus —
when buffering — `receive_incoming("[Background task output]\n" + text)`
on the owner's persistent session. -/
def sendToOwnerTrace (ownerId : Int) (text : List Char) (buffer : Bool) :
    List Ev :=
  Ev.sent ownerId text ::
    (if buffer then [Ev.buffered ("[Background task output]\n".data ++ text)]
     else [])

/-- Step 1 of `execute`: `if event.preview_message and event.notify_owner:
send_to_owner(event.preview_message, buffer=False)`. -/
def previewTrace (ownerId : Int) (ev : TriggerEvent) : List Ev :=
  match ev.previewMessage with
  | some p => if !p.isEmpty && ev.notifyOwner then sendToOwnerTrace ownerId p false else []
  | none => []

/-- Line `if event.silent_marker and event.silent_marker in content`. -/
def markerSilences (ev : TriggerEvent) (content : List Char) : Bool :=
  match ev.silentMarker with
  | some mk => !mk.isEmpty && listInfix mk content
  | none => false

/-- Line `if event.silent_marker: content = content.replace(marker, "").strip()`. -/
def stripMarker (ev : TriggerEvent) (content : List Char) : List Char :=
  match ev.silentMarker with
  | some mk => if !mk.isEmpty then pytrim (pyreplace content mk []) else content
  | none => content

/-- Line `if event.result_prefix: content = f"{event.result_prefix}\n{content}"`. -/
def withPfx (ev : TriggerEvent) (content : List Char) : List Char :=
  match ev.resultPfx with
  | some p => if !p.isEmpty then p ++ '\n' :: content else content
  | none => content

/-- Line `if len(content) > MAX_MESSAGE_LENGTH: content =
content[:MAX_MESSAGE_LENGTH] + "..."`. -/
def truncateMax (content : List Char) : List Char :=
  if content.length > MAX_MESSAGE_LENGTH then
    content.take MAX_MESSAGE_LENGTH ++ "...".data
  else content

/-- Method `TriggerExecutor.execute(event)`: preview, ephemeral query guarded by
`try/finally destroy`, silence check, marker strip, empty check, `prefix`,
truncate, deliver.  Result `.error e` means the backend query raised and
the exception propagated out of `execute`; `.ok none` means silenced;
`.ok (some text)` is the returned (and, when `notify_owner`, delivered)
text. -/
def executeModel (ownerId : Int) (ev : TriggerEvent)
    (q : Except String (List Char)) :
    Except String (Option (List Char)) × List Ev :=
  match q with
  | .error e => (.error e, previewTrace ownerId ev ++ [Ev.create, Ev.destroy])
  | .ok raw =>
    if markerSilences ev (pytrim raw) then
      (.ok none, previewTrace ownerId ev ++ [Ev.create, Ev.destroy])
    else
      if (stripMarker ev (pytrim raw)).isEmpty then
        (.ok none, previewTrace ownerId ev ++ [Ev.create, Ev.destroy])
      else
        if ev.notifyOwner then
          (.ok (some (truncateMax (withPfx ev (stripMarker ev (pytrim raw))))),
            previewTrace ownerId ev ++ [Ev.create, Ev.destroy] ++
              sendToOwnerTrace ownerId
                (truncateMax (withPfx ev (stripMarker ev (pytrim raw)))) true)
        else
          (.ok (some (truncateMax (withPfx ev (stripMarker ev (pytrim raw))))),
            previewTrace ownerId ev ++ [Ev.create, Ev.destroy])

/-- C2 counterexample: an event with a preview message and notify-owner
set whose reply is exactly its silence marker — `execute` does return
`None`, but the preview heads-up has already reached the transport before
the backend reply was known, contradicting "no message at all reaches the
transport during that execution, even when the event carries a preview
message and requests owner notification". -/
theorem execute_silent_preview_cx :
    executeModel 1
      { source := "t", prompt := "p",
        previewMessage := some ("checking...".data), notifyOwner := true,
        silentMarker := some ("NOTHING".data), resultPfx := none }
      (.ok ("NOTHING".data)) =
      (.ok none, [Ev.sent 1 ("checking...".data), Ev.create, Ev.destroy]) ∧
    Ev.sent 1 ("checking...".data) ∈
      (executeModel 1
        { source := "t", prompt := "p",
          previewMessage := some ("checking...".data), notifyOwner := true,
          silentMarker := some ("NOTHING".data), resultPfx := none }
        (.ok ("NOTHING".data))).2 := by
  exact ⟨rfl, by decide⟩

/-- C2 (amended): for every TriggerEvent whose trimmed backend reply
contains the event's configured (non-empty) silence marker, `execute`
returns nothing (`None`), delivers no result message and buffers nothing
into the owner history; the only transport traffic of the execution is
the preview heads-up, which — when a preview message exists and
notification is requested — was already sent before the backend reply was
known. -/
theorem execute_silenced (ownerId : Int) (ev : TriggerEvent)
    (raw : List Char) (h : markerSilences ev (pytrim raw) = true) :
    executeModel ownerId ev (.ok raw) =
      (.ok none, previewTrace ownerId ev ++ [Ev.create, Ev.destroy]) := by
  simp [executeModel, h]

theorem execute_silenced_w :
    markerSilences
        { source := "t", prompt := "p", previewMessage := none,
          notifyOwner := true, silentMarker := some ("HEARTBEAT_OK".data),
          resultPfx := some ("[result]".data) }
        (pytrim ("all quiet HEARTBEAT_OK today".data)) = true ∧
    executeModel 7
        { source := "t", prompt := "p", previewMessage := none,
          notifyOwner := true, silentMarker := some ("HEARTBEAT_OK".data),
          resultPfx := some ("[result]".data) }
        (.ok ("all quiet HEARTBEAT_OK today".data)) =
      (.ok none, [Ev.create, Ev.destroy]) := by
  refine ⟨by decide, ?_⟩
  exact execute_silenced 7
    { source := "t", prompt := "p", previewMessage := none,
      notifyOwner := true, silentMarker := some ("HEARTBEAT_OK".data),
      resultPfx := some ("[result]".data) }
    ("all quiet HEARTBEAT_OK today".data) (by decide)

theorem executeModel_ok_shape (ownerId : Int) (ev : TriggerEvent)
    (raw : List Char) (h : markerSilences ev (pytrim raw) = false)
    (hne : stripMarker ev (pytrim raw) ≠ []) :
    executeModel ownerId ev (.ok raw) =
      (.ok (some (truncateMax (withPfx ev (stripMarker ev (pytrim raw))))),
        previewTrace ownerId ev ++ [Ev.create, Ev.destroy] ++
          (if ev.notifyOwner then
            sendToOwnerTrace ownerId
              (truncateMax (withPfx ev (stripMarker ev (pytrim raw)))) true
          else [])) := by
  have hne2 : (stripMarker ev (pytrim raw)).isEmpty = false := by
    cases hh : (stripMarker ev (pytrim raw)).isEmpty
    · rfl
    · exact absurd (List.isEmpty_iff.mp hh) hne
  by_cases h3 : ev.notifyOwner <;>
    simp [executeModel, h, hne2, h3]

/-- C7 counterexample: an event with result `prefix` "P" whose backend
reply is pure whitespace (no silence marker configured, so no marker
match): the claim demands that the delivered text equal the `prefix`
followed by the (empty) stripped reply and that `execute` return it, but
the code's `if not content: return None` branch fires — `execute` returns
`None` and delivers nothing at all. -/
theorem execute_empty_reply_cx :
    executeModel 1
      { source := "t", prompt := "p", previewMessage := none,
        notifyOwner := true, silentMarker := none,
        resultPfx := some ("P".data) }
      (.ok ("   ".data)) =
      (.ok none, [Ev.create, Ev.destroy]) := by
  exact rfl

/-- C7 (amended): for every TriggerEvent whose trimmed backend reply does
not match the configured silence marker and whose marker-stripped, trimmed
reply is non-empty, `execute` returns exactly `prefix + "\n" + stripped`
hard-truncated with an ellipsis precisely when it exceeds
MAX_MESSAGE_LENGTH, and — when owner notification is requested — delivers
that same text to the owner (buffering it into the owner history);
if the stripped reply is empty, `execute` returns `None` and delivers
nothing. -/
theorem execute_result_pipeline (ownerId : Int) (ev : TriggerEvent)
    (raw : List Char) (h : markerSilences ev (pytrim raw) = false)
    (hne : stripMarker ev (pytrim raw) ≠ []) :
    executeModel ownerId ev (.ok raw) =
      (.ok (some (truncateMax (withPfx ev (stripMarker ev (pytrim raw))))),
        previewTrace ownerId ev ++ [Ev.create, Ev.destroy] ++
          (if ev.notifyOwner then
            sendToOwnerTrace ownerId
              (truncateMax (withPfx ev (stripMarker ev (pytrim raw)))) true
          else [])) ∧
    truncateMax (withPfx ev (stripMarker ev (pytrim raw))) =
      (if MAX_MESSAGE_LENGTH < (withPfx ev (stripMarker ev (pytrim raw))).length
       then (withPfx ev (stripMarker ev (pytrim raw))).take MAX_MESSAGE_LENGTH
              ++ "...".data
       else withPfx ev (stripMarker ev (pytrim raw))) := by
  exact ⟨executeModel_ok_shape ownerId ev raw h hne, rfl⟩

theorem execute_result_pipeline_w :
    markerSilences
        { source := "t", prompt := "p", previewMessage := none,
          notifyOwner := true, silentMarker := some ("SILENT".data),
          resultPfx := some ("P".data) }
        (pytrim (" hello ".data)) = false ∧
    stripMarker
        { source := "t", prompt := "p", previewMessage := none,
          notifyOwner := true, silentMarker := some ("SILENT".data),
          resultPfx := some ("P".data) }
        (pytrim (" hello ".data)) ≠ [] ∧
    executeModel 1
        { source := "t", prompt := "p", previewMessage := none,
          notifyOwner := true, silentMarker := some ("SILENT".data),
          resultPfx := some ("P".data) }
        (.ok (" hello ".data)) =
      (.ok (some ("P\nhello".data)),
        [Ev.create, Ev.destroy, Ev.sent 1 ("P\nhello".data),
         Ev.buffered ("[Background task output]\nP\nhello".data)]) := by
  refine ⟨by decide, by decide, ?_⟩
  have h := (execute_result_pipeline 1
      { source := "t", prompt := "p", previewMessage := none,
        notifyOwner := true, silentMarker := some ("SILENT".data),
        resultPfx := some ("P".data) }
      (" hello ".data) (by decide) (by decide)).1
  rw [h]
  decide

theorem dropWhile_replicate_of_neg (p : Char → Bool) (c : Char)
    (h : p c = false) (n : Nat) :
    (List.replicate n c).dropWhile p = List.replicate n c := by
  cases n with
  | zero => rfl
  | succ n => simp [List.replicate_succ, List.dropWhile_cons, h]

theorem pytrim_replicate (n : Nat) :
    pytrim (List.replicate n 'a') = List.replicate n 'a' := by
  have h : Char.isWhitespace 'a' = false := by decide
  simp [pytrim, dropWhile_replicate_of_neg _ _ h, List.reverse_replicate]

/-- The truncation step never produces more than
MAX_MESSAGE_LENGTH + 3 characters (the 3 being the appended `"..."`). -/
theorem truncateMax_length (content : List Char) :
    (truncateMax content).length ≤ MAX_MESSAGE_LENGTH + 3 := by
  unfold truncateMax
  split
  · rw [List.length_append, List.length_take]
    have h3 : ("...".data).length = 3 := rfl
    omega
  · omega

/-- C6 counterexample: a 4001-character backend reply (no marker, no
`prefix`) passes through the hard-truncate step and is returned as a
4003-character text — `content[:4000] + "..."` — strictly longer than the
configured maximum of 4000, contradicting "the length of the delivered
text never exceeds the fixed maximum". -/
theorem delivered_overlong_cx :
    (executeModel 1
      { source := "t", prompt := "p", previewMessage := none,
        notifyOwner := false, silentMarker := none, resultPfx := none }
      (.ok (List.replicate 4001 'a'))).1 =
      .ok (some (List.replicate 4000 'a' ++ "...".data)) ∧
    (List.replicate 4000 'a' ++ ("...".data)).length = 4003 ∧
    MAX_MESSAGE_LENGTH < 4003 := by
  have htrim : pytrim (List.replicate 4001 'a') = List.replicate 4001 'a' :=
    pytrim_replicate 4001
  have htrunc : truncateMax (List.replicate 4001 'a') =
      List.replicate 4000 'a' ++ "...".data := by
    unfold truncateMax
    rw [if_pos]
    · rw [List.take_replicate]
      norm_num [MAX_MESSAGE_LENGTH]
    · rw [List.length_replicate]
      norm_num [MAX_MESSAGE_LENGTH]
  refine ⟨?_, ?_, by norm_num [MAX_MESSAGE_LENGTH]⟩
  · have h := (executeModel_ok_shape 1
      { source := "t", prompt := "p", previewMessage := none,
        notifyOwner := false, silentMarker := none, resultPfx := none }
      (List.replicate 4001 'a') rfl
      (by rw [show stripMarker
          { source := "t", prompt := "p", previewMessage := none,
            notifyOwner := false, silentMarker := none, resultPfx := none }
          (pytrim (List.replicate 4001 'a')) =
          pytrim (List.replicate 4001 'a') from rfl, htrim]
          intro hnil
          have := congrArg List.length hnil
          rw [List.length_replicate] at this
          simp at this))
    rw [h]
    show Except.ok (some (truncateMax (withPfx _ (stripMarker _ (pytrim _))))) = _
    rw [show withPfx
        { source := "t", prompt := "p", previewMessage := none,
          notifyOwner := false, silentMarker := none, resultPfx := none }
        (stripMarker
          { source := "t", prompt := "p", previewMessage := none,
            notifyOwner := false, silentMarker := none, resultPfx := none }
          (pytrim (List.replicate 4001 'a'))) =
        pytrim (List.replicate 4001 'a') from rfl, htrim, htrunc]
  · rw [List.length_append, List.length_replicate]
    have h3 : ("...".data).length = 3 := rfl
    omega

/-! ## HeartbeatRunner check (`src/heartbeat.py`)

`_check()` first runs `_check_user_tasks()` (direct deterministic
reminders, no backend), then builds the briefing prompt, then runs it
through a one-shot heartbeat session guarded by `try/finally destroy`,
and finally applies the HEARTBEAT_OK silence / strip / truncate / send
pipeline.  The collaborators are oracles:

* `overdue`  — `repo.list_tasks(overdue_only=True)` (can raise);
* `getUser`  — `repo.get_user(user_id)` (can raise; its value only feeds a
  log line, so the payload is irrelevant);
* `sendUser` — `client.send_message(user_id, reminder)` (can raise; this
  is the only call wrapped in the per-recipient `try/except`);
* `promptRes` — `_build_heartbeat_prompt()` (reads the repository, can
  raise; the composed prompt text only feeds the backend oracle);
* `queryRes` — the ephemeral session's backend reply (or a raise);
* `sendOwner` — `client.send_message(owner, briefing)` (can raise,
  unguarded).
-/

/-- The task fields `_check_user_tasks` reads: `title`, `deadline`
(embedded as a Unix timestamp, `none` = no deadline) and `assignee_id`
(`none` = unassigned/system task), projected from `Task` in
`src/users/models.py`. -/
structure HTask where
  title : List Char
  deadline : Option Int
  assignee : Option Int
deriving DecidableEq, Repr

/-- Oracle bundle for one heartbeat check (`now` is the wall clock used
for the overdue-days arithmetic). -/
structure HBEnv where
  ownerId : Int
  now : Int
  overdue : Except String (List HTask)
  getUser : Int → Except String Unit
  sendUser : Int → List Char → Except String Unit
  promptRes : Except String Unit
  queryRes : Except String (List Char)
  sendOwner : List Char → Except String Unit

/-- Expression `(datetime.now(tz) - task.deadline).days if task.deadline else 0`
(`timedelta.days` floors, hence `Int.fdiv`). -/
def taskDays (now : Int) (t : HTask) : Int :=
  match t.deadline with
  | some d => (now - d).fdiv 86400
  | none => 0

/-- One reminder line:
`f"• {task.title[:50]} (просрочено {days} дн.)"`. -/
def taskLine (now : Int) (t : HTask) : List Char :=
  "• ".data ++ t.title.take 50 ++ " (просрочено ".data ++
    (toString (taskDays now t)).data ++ " дн.)".data

/-- The full reminder text for one assignee's overdue tasks: header, the
top-3 task lines joined by newlines, and — when more than 3 tasks are
overdue — the `"...и ещё {len(tasks) - 3} задач(и)"` suffix. -/
def reminderText (now : Int) (tasks : List HTask) : List Char :=
  let lines := (tasks.take 3).map (taskLine now)
  let r := "Напоминание о просроченных задачах:\n\n".data ++
    List.intercalate "\n".data lines
  if tasks.length > 3 then
    r ++ "\n\n...и ещё ".data ++ (toString ((tasks.length : Int) - 3)).data ++
      " задач(и)".data
  else r

/-- One step of the `by_user` grouping dict: append the task to the
existing bucket for this assignee, or open a new bucket at the end
(Python dicts preserve insertion order). -/
def addToGroup : List (Int × List HTask) → Int → HTask → List (Int × List HTask)
  | [], u, t => [(u, [t])]
  | (k, v) :: rest, u, t =>
    if k = u then (k, v ++ [t]) :: rest
    else (k, v) :: addToGroup rest u t

/-- One iteration of the grouping pass: unassigned tasks are skipped,
assigned tasks go to their assignee's bucket. -/
def groupStep (acc : List (Int × List HTask)) (t : HTask) :
    List (Int × List HTask) :=
  match t.assignee with
  | none => acc
  | some u => addToGroup acc u t

/-- Grouping `by_user`: group the overdue tasks by `assignee_id`, skipping
unassigned tasks, preserving first-seen assignee order. -/
def groupByAssignee (tasks : List HTask) : List (Int × List HTask) :=
  tasks.foldl groupStep []

/-- Bucket lookup in the grouping (dict access by key). -/
def bucketOf : List (Int × List HTask) → Int → Option (List HTask)
  | [], _ => none
  | (k, v) :: rest, u => if u = k then some v else bucketOf rest u

/-- The reminder loop over the grouped assignees: skip the owner, fetch
the user row (a raise here propagates, aborting the loop and the check),
then send the reminder inside the per-recipient `try/except`
(a send failure is logged and the loop continues). -/
def loopModel (ownerId now : Int) (getUser : Int → Except String Unit)
    (sendUser : Int → List Char → Except String Unit) :
    List (Int × List HTask) → Except String Unit × List Ev
  | [] => (.ok (), [])
  | (u, ts) :: rest =>
    if u = ownerId then loopModel ownerId now getUser sendUser rest
    else
      match getUser u with
      | .error e => (.error e, [])
      | .ok _ =>
        let reminder := reminderText now ts
        match sendUser u reminder with
        | .ok _ =>
          let r := loopModel ownerId now getUser sendUser rest
          (r.1, Ev.sent u reminder :: r.2)
        | .error _ =>
          let r := loopModel ownerId now getUser sendUser rest
          (r.1, Ev.sendFailed u :: r.2)

/-- Method `_check_user_tasks()`: fetch overdue tasks (a raise propagates),
return early if none, group by assignee and run the reminder loop. -/
def checkUserTasksModel (ownerId now : Int)
    (overdue : Except String (List HTask))
    (getUser : Int → Except String Unit)
    (sendUser : Int → List Char → Except String Unit) :
    Except String Unit × List Ev :=
  match overdue with
  | .error e => (.error e, [])
  | .ok tasks =>
    if tasks.isEmpty then (.ok (), [])
    else loopModel ownerId now getUser sendUser (groupByAssignee tasks)

/-- HEARTBEAT_OK_MARKER from `heartbeat.py`. -/
def hbMarker : List Char := "HEARTBEAT_OK".data

/-- The proactive-briefing tail of `_check()`: prompt building (a raise
propagates before any session exists), the ephemeral briefing query
guarded by `try/finally destroy`, then the HEARTBEAT_OK silence / strip /
truncate pipeline ending in one (unguarded) owner send of
`"💡\n" + content`. -/
def briefingModel (env : HBEnv) : Except String Unit × List Ev :=
  match env.promptRes with
  | .error e => (.error e, [])
  | .ok _ =>
    match env.queryRes with
    | .error e => (.error e, [Ev.create, Ev.destroy])
    | .ok raw =>
      if listInfix hbMarker (pytrim raw) then (.ok (), [Ev.create, Ev.destroy])
      else
        if (pytrim (pyreplace (pytrim raw) hbMarker [])).isEmpty then
          (.ok (), [Ev.create, Ev.destroy])
        else
          match env.sendOwner
              (truncateMax
                ("💡\n".data ++ pytrim (pyreplace (pytrim raw) hbMarker []))) with
          | .ok _ =>
            (.ok (), [Ev.create, Ev.destroy,
              Ev.sent env.ownerId
                (truncateMax
                  ("💡\n".data ++ pytrim (pyreplace (pytrim raw) hbMarker [])))])
          | .error e => (.error e, [Ev.create, Ev.destroy])

/-- Method `HeartbeatRunner._check()`: the reminder sub-flow runs first; any
exception it raises propagates and nothing of the briefing sub-flow runs;
otherwise the briefing tail runs and its events are appended to the
reminder trace. -/
def heartbeatCheckModel (env : HBEnv) : Except String Unit × List Ev :=
  match checkUserTasksModel env.ownerId env.now env.overdue
      env.getUser env.sendUser with
  | (.error e, tr) => (.error e, tr)
  | (.ok _, tr) =>
    let b := briefingModel env
    (b.1, tr ++ b.2)

theorem loopModel_events (ownerId now : Int)
    (getUser : Int → Except String Unit)
    (sendUser : Int → List Char → Except String Unit)
    (entries : List (Int × List HTask)) :
    ∀ e ∈ (loopModel ownerId now getUser sendUser entries).2,
      ∃ u ts, (u, ts) ∈ entries ∧ u ≠ ownerId ∧
        (e = Ev.sent u (reminderText now ts) ∨ e = Ev.sendFailed u) := by
  induction entries with
  | nil => intro e he; simp [loopModel] at he
  | cons hd rest ih =>
    obtain ⟨u, ts⟩ := hd
    intro e he
    by_cases hu : u = ownerId
    · simp only [loopModel, hu, if_true] at he
      obtain ⟨w, ws, hmem, hw, he2⟩ := ih e he
      exact ⟨w, ws, by simp [hmem], hw, he2⟩
    · simp only [loopModel, hu, if_false] at he
      cases hg : getUser u with
      | error err => rw [hg] at he; simp at he
      | ok _ =>
        rw [hg] at he
        cases hs : sendUser u (reminderText now ts) with
        | ok _ =>
          rw [hs] at he
          simp only [List.mem_cons] at he
          cases he with
          | inl h0 => exact ⟨u, ts, by simp, hu, Or.inl h0⟩
          | inr h0 =>
            obtain ⟨w, ws, hmem, hw, he2⟩ := ih e h0
            exact ⟨w, ws, by simp [hmem], hw, he2⟩
        | error err =>
          rw [hs] at he
          simp only [List.mem_cons] at he
          cases he with
          | inl h0 => exact ⟨u, ts, by simp, hu, Or.inr h0⟩
          | inr h0 =>
            obtain ⟨w, ws, hmem, hw, he2⟩ := ih e h0
            exact ⟨w, ws, by simp [hmem], hw, he2⟩

theorem loopModel_attempt (ownerId now : Int)
    (getUser : Int → Except String Unit)
    (sendUser : Int → List Char → Except String Unit)
    (entries : List (Int × List HTask))
    (hGet : ∀ u, getUser u = .ok ()) :
    ∀ u ts, (u, ts) ∈ entries → u ≠ ownerId →
      (sendUser u (reminderText now ts) = .ok () →
        Ev.sent u (reminderText now ts) ∈
          (loopModel ownerId now getUser sendUser entries).2) ∧
      (∀ e, sendUser u (reminderText now ts) = .error e →
        Ev.sendFailed u ∈
          (loopModel ownerId now getUser sendUser entries).2) := by
  induction entries with
  | nil => intro u ts hmem; simp at hmem
  | cons hd rest ih =>
    obtain ⟨v, vs⟩ := hd
    intro u ts hmem hu
    by_cases hv : v = ownerId
    · have hmem2 : (u, ts) ∈ rest := by
        rcases List.mem_cons.mp hmem with h0 | h0
        · rw [Prod.mk.injEq] at h0
          exact absurd (h0.1.trans hv) hu
        · exact h0
      have := ih u ts hmem2 hu
      simpa [loopModel, hv] using this
    · rcases List.mem_cons.mp hmem with h0 | h0
      · rw [Prod.mk.injEq] at h0
        obtain ⟨hu2, hts⟩ := h0
        subst hu2; subst hts
        constructor
        · intro hsend
          simp [loopModel, hv, hGet u, hsend]
        · intro e hsend
          simp [loopModel, hv, hGet u, hsend]
      · have hrec := ih u ts h0 hu
        constructor
        · intro hsend
          have h1 := hrec.1 hsend
          simp only [loopModel, hv, if_false, hGet v]
          cases hs : sendUser v (reminderText now vs) with
          | ok _ => simp [h1]
          | error err => simp [h1]
        · intro e hsend
          have h1 := hrec.2 e hsend
          simp only [loopModel, hv, if_false, hGet v]
          cases hs : sendUser v (reminderText now vs) with
          | ok _ => simp [h1]
          | error err => simp [h1]

theorem bucketOf_addToGroup (g : List (Int × List HTask)) (u : Int)
    (t : HTask) (w : Int) :
    bucketOf (addToGroup g u t) w =
      if w = u then some ((bucketOf g u).getD [] ++ [t]) else bucketOf g w := by
  induction g with
  | nil =>
    by_cases hw : w = u <;> simp [addToGroup, bucketOf, hw]
  | cons hd rest ih =>
    obtain ⟨k, v⟩ := hd
    by_cases hk : k = u
    · subst hk
      by_cases hw : w = k <;> simp [addToGroup, bucketOf, hw]
    · simp only [addToGroup, hk, if_false]
      by_cases hw : w = k
      · subst hw
        have hwu : ¬(w = u) := hk
        simp [bucketOf, hwu]
      · simp only [bucketOf, hw, if_false, ih]
        by_cases hwu : w = u
        · subst hwu
          simp [bucketOf, hw]
        · simp [hwu]

theorem bucketOf_groupStep (tasks : List HTask) :
    ∀ (acc : List (Int × List HTask)) (u : Int),
      bucketOf (tasks.foldl groupStep acc) u =
      (match bucketOf acc u with
       | some v =>
         some (v ++ tasks.filter (fun t => decide (t.assignee = some u)))
       | none =>
         if (tasks.filter (fun t => decide (t.assignee = some u))).isEmpty
         then none
         else some (tasks.filter (fun t => decide (t.assignee = some u)))) := by
  induction tasks with
  | nil =>
    intro acc u
    cases h : bucketOf acc u <;> simp [h]
  | cons t rest ih =>
    intro acc u
    rw [List.foldl_cons]
    cases ht : t.assignee with
    | none =>
      have hstep : groupStep acc t = acc := by simp [groupStep, ht]
      have hp : (decide (t.assignee = some u)) = false := by simp [ht]
      rw [List.filter_cons]
      simp only [hp, Bool.false_eq_true, if_false]
      rw [hstep]
      exact ih acc u
    | some w =>
      have hstep : groupStep acc t = addToGroup acc w t := by
        simp [groupStep, ht]
      rw [hstep]
      by_cases hw : w = u
      · subst hw
        have hp : (decide (t.assignee = some w)) = true := by simp [ht]
        rw [List.filter_cons]
        simp only [hp, if_true]
        have h2 := ih (addToGroup acc w t) w
        rw [bucketOf_addToGroup, if_pos rfl] at h2
        rw [h2]
        cases hb : bucketOf acc w with
        | some v => simp [hb]
        | none => simp [hb]
      · have hp : (decide (t.assignee = some u)) = false := by simp [ht, hw]
        rw [List.filter_cons]
        simp only [hp, Bool.false_eq_true, if_false]
        have h2 := ih (addToGroup acc w t) u
        rw [bucketOf_addToGroup, if_neg (fun h => hw h.symm)] at h2
        exact h2

theorem bucketOf_groupByAssignee (tasks : List HTask) (u : Int) :
    bucketOf (groupByAssignee tasks) u =
      (if (tasks.filter (fun t => decide (t.assignee = some u))).isEmpty
       then none
       else some (tasks.filter (fun t => decide (t.assignee = some u)))) := by
  have h := bucketOf_groupStep tasks [] u
  rw [groupByAssignee, h]
  rfl

/-- The assignee ids appearing as grouping keys. -/
def keysOf (g : List (Int × List HTask)) : List Int := g.map Prod.fst

theorem keysOf_addToGroup (g : List (Int × List HTask)) (u : Int) (t : HTask) :
    keysOf (addToGroup g u t) =
      if u ∈ keysOf g then keysOf g else keysOf g ++ [u] := by
  induction g with
  | nil => simp [addToGroup, keysOf]
  | cons hd rest ih =>
    obtain ⟨k, v⟩ := hd
    by_cases hk : k = u
    · subst hk
      simp [addToGroup, keysOf]
    · simp only [addToGroup, hk, if_false]
      have hrw : keysOf ((k, v) :: addToGroup rest u t) =
          k :: keysOf (addToGroup rest u t) := by simp [keysOf]
      rw [hrw, ih]
      have hkeys : keysOf ((k, v) :: rest) = k :: keysOf rest := by simp [keysOf]
      rw [hkeys]
      by_cases hmem : u ∈ keysOf rest
      · rw [if_pos hmem, if_pos (List.mem_cons_of_mem _ hmem)]
      · have hku : ¬(u = k) := fun h => hk h.symm
        rw [if_neg hmem, if_neg (by simp [List.mem_cons, hku, hmem]),
          List.cons_append]

theorem nodup_keys_addToGroup (g : List (Int × List HTask)) (u : Int)
    (t : HTask) (h : (keysOf g).Nodup) :
    (keysOf (addToGroup g u t)).Nodup := by
  rw [keysOf_addToGroup]
  split
  · exact h
  · rename_i hni
    simp [List.nodup_append, h, hni]

theorem nodup_keys_groupBy (tasks : List HTask) :
    (keysOf (groupByAssignee tasks)).Nodup := by
  suffices h : ∀ acc, (keysOf acc).Nodup →
      (keysOf (tasks.foldl groupStep acc)).Nodup by
    exact h [] (by simp [keysOf])
  induction tasks with
  | nil => intro acc h; exact h
  | cons t rest ih =>
    intro acc h
    rw [List.foldl_cons]
    cases ht : t.assignee with
    | none =>
      have hstep : groupStep acc t = acc := by simp [groupStep, ht]
      rw [hstep]
      exact ih acc h
    | some w =>
      have hstep : groupStep acc t = addToGroup acc w t := by
        simp [groupStep, ht]
      rw [hstep]
      exact ih (addToGroup acc w t) (nodup_keys_addToGroup acc w t h)

theorem bucketOf_of_mem (g : List (Int × List HTask))
    (h : (keysOf g).Nodup) (u : Int) (v : List HTask) (hm : (u, v) ∈ g) :
    bucketOf g u = some v := by
  induction g with
  | nil => simp at hm
  | cons hd rest ih =>
    obtain ⟨k, w⟩ := hd
    have hnd : k ∉ keysOf rest ∧ (keysOf rest).Nodup := by
      have : keysOf ((k, w) :: rest) = k :: keysOf rest := by simp [keysOf]
      rw [this] at h
      exact List.nodup_cons.mp h
    rcases List.mem_cons.mp hm with h0 | h0
    · rw [Prod.mk.injEq] at h0
      obtain ⟨h1, h2⟩ := h0
      subst h1; subst h2
      simp [bucketOf]
    · have hk : ¬(u = k) := by
        intro he; subst he
        exact hnd.1 (by simp [keysOf]; exact ⟨v, h0⟩)
      simp only [bucketOf, hk, if_false]
      exact ih hnd.2 h0

theorem mem_groupBy_filter (tasks : List HTask) (u : Int) (ts : List HTask)
    (hm : (u, ts) ∈ groupByAssignee tasks) :
    ts = tasks.filter (fun t => decide (t.assignee = some u)) ∧
      ∃ t ∈ tasks, t.assignee = some u := by
  have hb := bucketOf_of_mem _ (nodup_keys_groupBy tasks) u ts hm
  rw [bucketOf_groupByAssignee] at hb
  by_cases he : (tasks.filter (fun t => decide (t.assignee = some u))).isEmpty
  · rw [if_pos he] at hb
    exact absurd hb (by simp)
  · rw [if_neg he] at hb
    refine ⟨(Option.some.inj hb).symm, ?_⟩
    have hne : tasks.filter (fun t => decide (t.assignee = some u)) ≠ [] := by
      simpa [List.isEmpty_iff] using he
    obtain ⟨t, htmem⟩ := List.exists_mem_of_ne_nil _ hne
    have h2 := List.mem_filter.mp htmem
    exact ⟨t, h2.1, by simpa using h2.2⟩

theorem checkUserTasks_events (ownerId now : Int)
    (overdue : Except String (List HTask))
    (getUser : Int → Except String Unit)
    (sendUser : Int → List Char → Except String Unit) :
    ∀ e ∈ (checkUserTasksModel ownerId now overdue getUser sendUser).2,
      ∃ u ts tasks, overdue = .ok tasks ∧ (u, ts) ∈ groupByAssignee tasks ∧
        u ≠ ownerId ∧
        (e = Ev.sent u (reminderText now ts) ∨ e = Ev.sendFailed u) := by
  intro e he
  unfold checkUserTasksModel at he
  split at he
  · simp at he
  · split at he
    · simp at he
    · obtain ⟨u, ts, hmem, hu, hev⟩ :=
        loopModel_events ownerId now getUser sendUser _ e he
      exact ⟨u, ts, _, rfl, hmem, hu, hev⟩

theorem checkTrace_no_sessions (ownerId now : Int)
    (overdue : Except String (List HTask))
    (getUser : Int → Except String Unit)
    (sendUser : Int → List Char → Except String Unit) :
    Ev.create ∉ (checkUserTasksModel ownerId now overdue getUser sendUser).2 ∧
    Ev.destroy ∉ (checkUserTasksModel ownerId now overdue getUser sendUser).2 := by
  constructor <;> intro hmem <;>
    obtain ⟨u, ts, tasks, _, _, _, hev⟩ :=
      checkUserTasks_events ownerId now overdue getUser sendUser _ hmem <;>
    rcases hev with hev | hev <;> simp at hev

theorem checkTrace_no_owner_send (ownerId now : Int)
    (overdue : Except String (List HTask))
    (getUser : Int → Except String Unit)
    (sendUser : Int → List Char → Except String Unit) (m : List Char) :
    Ev.sent ownerId m ∉ (checkUserTasksModel ownerId now overdue getUser sendUser).2 := by
  intro hmem
  obtain ⟨u, ts, tasks, _, _, hu, hev⟩ :=
    checkUserTasks_events ownerId now overdue getUser sendUser _ hmem
  rcases hev with hev | hev
  · rw [Ev.sent.injEq] at hev
    exact hu hev.1.symm
  · simp at hev

theorem briefing_events (env : HBEnv) :
    ∀ e ∈ (briefingModel env).2,
      e = Ev.create ∨ e = Ev.destroy ∨
        ∃ m, e = Ev.sent env.ownerId m ∧ m.length ≤ MAX_MESSAGE_LENGTH + 3 := by
  intro e he
  unfold briefingModel at he
  split at he
  · simp at he
  · split at he
    · rcases List.mem_cons.mp he with h | h
      · exact Or.inl h
      · exact Or.inr (Or.inl (by simpa using h))
    · split at he
      · rcases List.mem_cons.mp he with h | h
        · exact Or.inl h
        · exact Or.inr (Or.inl (by simpa using h))
      · split at he
        · rcases List.mem_cons.mp he with h | h
          · exact Or.inl h
          · exact Or.inr (Or.inl (by simpa using h))
        · split at he
          · rcases List.mem_cons.mp he with h | h
            · exact Or.inl h
            · rcases List.mem_cons.mp h with h2 | h2
              · exact Or.inr (Or.inl h2)
              · refine Or.inr (Or.inr ⟨_, by simpa using h2, truncateMax_length _⟩)
          · rcases List.mem_cons.mp he with h | h
            · exact Or.inl h
            · exact Or.inr (Or.inl (by simpa using h))

theorem heartbeat_trace_split (env : HBEnv) :
    ∃ rest, (heartbeatCheckModel env).2 =
      (checkUserTasksModel env.ownerId env.now env.overdue
        env.getUser env.sendUser).2 ++ rest ∧
      ∀ e ∈ rest, e = Ev.create ∨ e = Ev.destroy ∨
        ∃ m, e = Ev.sent env.ownerId m ∧ m.length ≤ MAX_MESSAGE_LENGTH + 3 := by
  unfold heartbeatCheckModel
  cases hc : checkUserTasksModel env.ownerId env.now env.overdue
      env.getUser env.sendUser with
  | mk r tr =>
    cases r with
    | error e => exact ⟨[], by simp, by simp⟩
    | ok _ => exact ⟨(briefingModel env).2, by simp, briefing_events env⟩

theorem previewTrace_no_sessions (ownerId : Int) (ev : TriggerEvent) :
    Ev.create ∉ previewTrace ownerId ev ∧
    Ev.destroy ∉ previewTrace ownerId ev := by
  unfold previewTrace
  cases ev.previewMessage with
  | none => simp
  | some p =>
    split
    · simp [sendToOwnerTrace]
    · simp

theorem sendToOwnerTrace_no_sessions (ownerId : Int) (text : List Char)
    (b : Bool) :
    Ev.create ∉ sendToOwnerTrace ownerId text b ∧
    Ev.destroy ∉ sendToOwnerTrace ownerId text b := by
  cases b <;> simp [sendToOwnerTrace]

/-- C4: on every exit path of `TriggerExecutor.execute` — backend success
or backend raise — the trace contains exactly one ephemeral-session
acquisition immediately followed by its destruction (the `try/finally`
guarantees the destroy before anything else happens, and before the
exception propagates); and on every exit path of `HeartbeatRunner._check`
the session events are balanced: either no session was ever acquired (the
check failed before the briefing query) or exactly one was acquired and
immediately destroyed. -/
theorem ephemeral_sessions_destroyed (ownerId : Int) (ev : TriggerEvent)
    (q : Except String (List Char)) (env : HBEnv) :
    (∃ pre post, (executeModel ownerId ev q).2 =
        pre ++ [Ev.create, Ev.destroy] ++ post ∧
        Ev.create ∉ pre ∧ Ev.destroy ∉ pre ∧
        Ev.create ∉ post ∧ Ev.destroy ∉ post) ∧
    ((Ev.create ∉ (heartbeatCheckModel env).2 ∧
      Ev.destroy ∉ (heartbeatCheckModel env).2) ∨
      ∃ pre post, (heartbeatCheckModel env).2 =
        pre ++ [Ev.create, Ev.destroy] ++ post ∧
        Ev.create ∉ pre ∧ Ev.destroy ∉ pre ∧
        Ev.create ∉ post ∧ Ev.destroy ∉ post) := by
  constructor
  · have hpre := previewTrace_no_sessions ownerId ev
    cases q with
    | error e =>
      exact ⟨previewTrace ownerId ev, [], by simp [executeModel],
        hpre.1, hpre.2, by simp, by simp⟩
    | ok raw =>
      by_cases h1 : markerSilences ev (pytrim raw)
      · exact ⟨previewTrace ownerId ev, [], by simp [executeModel, h1],
          hpre.1, hpre.2, by simp, by simp⟩
      · by_cases h2 : (stripMarker ev (pytrim raw)).isEmpty
        · exact ⟨previewTrace ownerId ev, [], by simp [executeModel, h1, h2],
            hpre.1, hpre.2, by simp, by simp⟩
        · by_cases h3 : ev.notifyOwner
          · exact ⟨previewTrace ownerId ev,
              sendToOwnerTrace ownerId
                (truncateMax (withPfx ev (stripMarker ev (pytrim raw)))) true,
              by simp [executeModel, h1, h2, h3], hpre.1, hpre.2,
              (sendToOwnerTrace_no_sessions _ _ _).1,
              (sendToOwnerTrace_no_sessions _ _ _).2⟩
          · exact ⟨previewTrace ownerId ev, [],
              by simp [executeModel, h1, h2, h3],
              hpre.1, hpre.2, by simp, by simp⟩
  · have hck := checkTrace_no_sessions env.ownerId env.now env.overdue
      env.getUser env.sendUser
    have hshape : (briefingModel env).2 = [] ∨
        ∃ post, (briefingModel env).2 = [Ev.create, Ev.destroy] ++ post ∧
          Ev.create ∉ post ∧ Ev.destroy ∉ post := by
      unfold briefingModel
      cases env.promptRes with
      | error e => exact Or.inl rfl
      | ok _ =>
        cases env.queryRes with
        | error e => exact Or.inr ⟨[], rfl, by simp, by simp⟩
        | ok raw =>
          by_cases h1 : listInfix hbMarker (pytrim raw)
          · exact Or.inr ⟨[], by simp [h1], by simp, by simp⟩
          · by_cases h2 : (pytrim (pyreplace (pytrim raw) hbMarker [])).isEmpty
            · exact Or.inr ⟨[], by simp [h1, h2], by simp, by simp⟩
            · cases hs : env.sendOwner (truncateMax
                  ("💡\n".data ++ pytrim (pyreplace (pytrim raw) hbMarker []))) with
              | ok _ =>
                refine Or.inr ⟨[Ev.sent env.ownerId (truncateMax
                  ("💡\n".data ++ pytrim (pyreplace (pytrim raw) hbMarker [])))],
                  ?_, by simp, by simp⟩
                dsimp only
                rw [if_neg h1, if_neg h2, hs]
                rfl
              | error e =>
                refine Or.inr ⟨[], ?_, by simp, by simp⟩
                dsimp only
                rw [if_neg h1, if_neg h2, hs]
                rfl
    unfold heartbeatCheckModel
    cases hc : checkUserTasksModel env.ownerId env.now env.overdue
        env.getUser env.sendUser with
    | mk r tr =>
      have htr1 : Ev.create ∉ tr := by rw [hc] at hck; exact hck.1
      have htr2 : Ev.destroy ∉ tr := by rw [hc] at hck; exact hck.2
      cases r with
      | error e => exact Or.inl ⟨htr1, htr2⟩
      | ok u =>
        show (Ev.create ∉ tr ++ (briefingModel env).2 ∧
            Ev.destroy ∉ tr ++ (briefingModel env).2) ∨
          ∃ pre post, tr ++ (briefingModel env).2 =
            pre ++ [Ev.create, Ev.destroy] ++ post ∧
            Ev.create ∉ pre ∧ Ev.destroy ∉ pre ∧
            Ev.create ∉ post ∧ Ev.destroy ∉ post
        rcases hshape with hb | ⟨post, hb, hp1, hp2⟩
        · rw [hb]
          exact Or.inl ⟨by simp [htr1], by simp [htr2]⟩
        · rw [hb]
          exact Or.inr ⟨tr, post, by simp, htr1, htr2, hp1, hp2⟩

/-- A benign heartbeat environment: no overdue tasks, every collaborator
succeeds, and the briefing reply is " hello " (no HEARTBEAT_OK marker), so
the check would deliver the briefing "💡\nhello" to the owner (id 1). -/
def hbEnvOkBase : HBEnv :=
  { ownerId := 1, now := 0,
    overdue := .ok [],
    getUser := fun _ => .ok (),
    sendUser := fun _ _ => .ok (),
    promptRes := .ok (),
    queryRes := .ok (" hello ".data),
    sendOwner := fun _ => .ok () }

/-- The same environment except that fetching the overdue tasks raises. -/
def hbEnvDbError : HBEnv := { hbEnvOkBase with overdue := .error "db error" }

/-- C5 counterexample: with every briefing collaborator healthy, a failure
at the start of the reminder sub-flow (the overdue-task fetch raising
"db error") aborts the whole check: no briefing session is created and no
briefing message is sent, even though the identical environment with a
successful fetch delivers the briefing — so a failure in one sub-flow
does prevent the other from running. -/
theorem heartbeat_subflow_failure_cx :
    heartbeatCheckModel hbEnvDbError = (.error "db error", []) ∧
    heartbeatCheckModel hbEnvOkBase =
      (.ok (), [Ev.create, Ev.destroy, Ev.sent 1 ("💡\nhello".data)]) := by
  exact ⟨rfl, rfl⟩

/-- C5 (amended): within one heartbeat check, (a) the reminder sub-flow
runs first and its behaviour is a function of the reminder collaborators
only, so no failure in the briefing sub-flow can affect it, and the
briefing events are appended after the reminder events; (b) each
per-recipient reminder send is individually guarded: provided the user
fetch succeeds, every non-owner assignee bucket gets its send attempted —
a delivery failure for one recipient (recorded and logged) does not
prevent the remaining recipients from being served.  However, a failure
in the reminder sub-flow outside the guarded send (the overdue fetch or a
user fetch raising) propagates and prevents the briefing sub-flow from
running, as the counterexample shows. -/
theorem heartbeat_subflows (env env2 : HBEnv) (tasks : List HTask)
    (hov : env.overdue = .ok tasks)
    (hGet : ∀ u, env.getUser u = .ok ())
    (ho : env2.ownerId = env.ownerId) (hn : env2.now = env.now)
    (hv : env2.overdue = env.overdue) (hg : env2.getUser = env.getUser)
    (hs : env2.sendUser = env.sendUser) :
    (∃ btr, (heartbeatCheckModel env).2 =
      (checkUserTasksModel env.ownerId env.now env.overdue
        env.getUser env.sendUser).2 ++ btr) ∧
    (checkUserTasksModel env2.ownerId env2.now env2.overdue
        env2.getUser env2.sendUser =
      checkUserTasksModel env.ownerId env.now env.overdue
        env.getUser env.sendUser) ∧
    (∀ u ts, (u, ts) ∈ groupByAssignee tasks → u ≠ env.ownerId →
      (env.sendUser u (reminderText env.now ts) = .ok () →
        Ev.sent u (reminderText env.now ts) ∈
          (checkUserTasksModel env.ownerId env.now env.overdue
            env.getUser env.sendUser).2) ∧
      (∀ e, env.sendUser u (reminderText env.now ts) = .error e →
        Ev.sendFailed u ∈
          (checkUserTasksModel env.ownerId env.now env.overdue
            env.getUser env.sendUser).2)) := by
  refine ⟨?_, by rw [ho, hn, hv, hg, hs], ?_⟩
  · obtain ⟨rest, heq, _⟩ := heartbeat_trace_split env
    exact ⟨rest, heq⟩
  · intro u ts hmem hu
    unfold checkUserTasksModel
    rw [hov]
    dsimp only
    by_cases hemp : tasks.isEmpty
    · rw [List.isEmpty_iff.mp hemp] at hmem
      simp [groupByAssignee] at hmem
    · rw [if_neg hemp]
      exact loopModel_attempt env.ownerId env.now env.getUser env.sendUser
        (groupByAssignee tasks) hGet u ts hmem hu

/-- Overdue task "task A", no deadline, assigned to user 2. -/
def wTaskA : HTask := ⟨"task A".data, none, some 2⟩

/-- Overdue task "task B", no deadline, assigned to user 3. -/
def wTaskB : HTask := ⟨"task B".data, none, some 3⟩

/-- Heartbeat environment with two overdue tasks for two assignees where
delivery to user 2 fails and delivery to user 3 succeeds. -/
def hbEnvTwo : HBEnv :=
  { hbEnvOkBase with
    overdue := .ok [wTaskA, wTaskB],
    sendUser := fun u _ => if u = 2 then .error "blocked" else .ok () }

theorem heartbeat_subflows_w :
    hbEnvTwo.overdue = .ok [wTaskA, wTaskB] ∧
    (∀ u, hbEnvTwo.getUser u = .ok ()) ∧
    Ev.sendFailed 2 ∈
      (checkUserTasksModel hbEnvTwo.ownerId hbEnvTwo.now hbEnvTwo.overdue
        hbEnvTwo.getUser hbEnvTwo.sendUser).2 ∧
    Ev.sent 3 (reminderText hbEnvTwo.now [wTaskB]) ∈
      (checkUserTasksModel hbEnvTwo.ownerId hbEnvTwo.now hbEnvTwo.overdue
        hbEnvTwo.getUser hbEnvTwo.sendUser).2 := by
  refine ⟨rfl, fun u => rfl, ?_, ?_⟩
  · exact ((heartbeat_subflows hbEnvTwo hbEnvTwo [wTaskA, wTaskB] rfl
      (fun u => rfl) rfl rfl rfl rfl rfl).2.2 2 [wTaskA]
      (by decide) (by decide)).2 "blocked" rfl
  · exact ((heartbeat_subflows hbEnvTwo hbEnvTwo [wTaskA, wTaskB] rfl
      (fun u => rfl) rfl rfl rfl rfl rfl).2.2 3 [wTaskB]
      (by decide) (by decide)).1 rfl

/-- C8: (a) for an assignee bucket with N > 3 overdue tasks, the reminder
text is the header, exactly the first 3 task lines (joined by newlines),
and the final `"...и ещё {N-3} задач(и)"` suffix — i.e. exactly 3 task
lines plus an "...and N-3 more" line; (b) every direct reminder the check
sends goes to a non-owner assignee of at least one overdue task, and its
text is the reminder for exactly that assignee's overdue tasks (tasks
with no assignee and tasks assigned to the owner produce no direct
reminder). -/
theorem heartbeat_reminder_content (now : Int) (ts : List HTask)
    (env : HBEnv) (tasks : List HTask) :
    (3 < ts.length →
      reminderText now ts =
        "Напоминание о просроченных задачах:\n\n".data ++
          List.intercalate "\n".data ((ts.take 3).map (taskLine now)) ++
          "\n\n...и ещё ".data ++ (toString ((ts.length : Int) - 3)).data ++
          " задач(и)".data ∧
      ((ts.take 3).map (taskLine now)).length = 3) ∧
    (env.overdue = .ok tasks →
      ∀ u m, Ev.sent u m ∈
          (checkUserTasksModel env.ownerId env.now env.overdue
            env.getUser env.sendUser).2 →
        u ≠ env.ownerId ∧
        m = reminderText env.now
          (tasks.filter (fun t => decide (t.assignee = some u))) ∧
        ∃ t ∈ tasks, t.assignee = some u) := by
  constructor
  · intro hlen
    constructor
    · rw [reminderText, if_pos hlen]
    · rw [List.length_map, List.length_take]
      omega
  · intro hov u m hmem
    obtain ⟨u2, ts2, tasks2, hov2, hgrp, hu2, hev⟩ :=
      checkUserTasks_events env.ownerId env.now env.overdue
        env.getUser env.sendUser _ hmem
    have htasks : tasks2 = tasks := by
      rw [hov] at hov2
      exact (Except.ok.inj hov2).symm
    rw [htasks] at hgrp
    rcases hev with hev | hev
    · rw [Ev.sent.injEq] at hev
      obtain ⟨hu, hm⟩ := hev
      subst hu
      obtain ⟨hfil, hex⟩ := mem_groupBy_filter tasks u ts2 hgrp
      exact ⟨hu2, by rw [hm, hfil], hex⟩
    · exact absurd hev (by simp)

/-- Five overdue tasks all assigned to user 2 (used to witness the
"3 lines plus '...and 2 more'" shape). -/
def wTasks5 : List HTask :=
  [⟨"a1".data, none, some 2⟩, ⟨"a2".data, none, some 2⟩,
   ⟨"a3".data, none, some 2⟩, ⟨"a4".data, none, some 2⟩,
   ⟨"a5".data, none, some 2⟩]

theorem heartbeat_reminder_content_w :
    3 < wTasks5.length ∧
    (reminderText 0 wTasks5 =
      "Напоминание о просроченных задачах:\n\n".data ++
        List.intercalate "\n".data ((wTasks5.take 3).map (taskLine 0)) ++
        "\n\n...и ещё ".data ++ (toString ((wTasks5.length : Int) - 3)).data ++
        " задач(и)".data ∧
      ((wTasks5.take 3).map (taskLine 0)).length = 3) ∧
    (toString ((wTasks5.length : Int) - 3)) = "2" := by
  refine ⟨by decide, ?_, by decide⟩
  exact (heartbeat_reminder_content 0 wTasks5 hbEnvOkBase []).1 (by decide)

/-- C6 (amended): every text delivered on the trigger-result path (the
value `execute` returns and, when notifying, sends and buffers) and every
briefing the heartbeat check sends to the owner is at most
MAX_MESSAGE_LENGTH + 3 characters long: the hard-truncate step cuts to
MAX_MESSAGE_LENGTH and then appends the three-character ellipsis, so the
delivered text can exceed the configured maximum by exactly the ellipsis,
and by no more. -/
theorem delivered_length_bound (ownerId : Int) (ev : TriggerEvent)
    (q : Except String (List Char)) (s : List Char) (env : HBEnv)
    (m : List Char) :
    ((executeModel ownerId ev q).1 = .ok (some s) →
      s.length ≤ MAX_MESSAGE_LENGTH + 3) ∧
    (Ev.sent env.ownerId m ∈ (heartbeatCheckModel env).2 →
      m.length ≤ MAX_MESSAGE_LENGTH + 3) := by
  constructor
  · intro h
    cases q with
    | error e => exact absurd h (by simp [executeModel])
    | ok raw =>
      by_cases h1 : markerSilences ev (pytrim raw)
      · rw [show (executeModel ownerId ev (.ok raw)).1 = .ok none by
          simp [executeModel, h1]] at h
        exact absurd (Except.ok.inj h) (by simp)
      · by_cases h2 : (stripMarker ev (pytrim raw)).isEmpty
        · rw [show (executeModel ownerId ev (.ok raw)).1 = .ok none by
            simp [executeModel, h1, h2]] at h
          exact absurd (Except.ok.inj h) (by simp)
        · have hres : (executeModel ownerId ev (.ok raw)).1 =
              .ok (some (truncateMax (withPfx ev (stripMarker ev (pytrim raw))))) := by
            by_cases h3 : ev.notifyOwner <;> simp [executeModel, h1, h2, h3]
          rw [hres] at h
          have hs2 : s = truncateMax (withPfx ev (stripMarker ev (pytrim raw))) :=
            (Option.some.inj (Except.ok.inj h)).symm
          rw [hs2]
          exact truncateMax_length _
  · intro hmem
    obtain ⟨rest, heq, hrest⟩ := heartbeat_trace_split env
    rw [heq] at hmem
    rcases List.mem_append.mp hmem with hmem | hmem
    · exact absurd hmem (checkTrace_no_owner_send env.ownerId env.now
        env.overdue env.getUser env.sendUser m)
    · rcases hrest _ hmem with h | h | ⟨m2, hm2, hb⟩
      · exact absurd h (by simp)
      · exact absurd h (by simp)
      · rw [Ev.sent.injEq] at hm2
        rw [hm2.2]
        exact hb

theorem delivered_length_bound_w :
    (executeModel 1
      { source := "t", prompt := "p", previewMessage := none,
        notifyOwner := false, silentMarker := none, resultPfx := none }
      (.ok ("hi".data))).1 = .ok (some ("hi".data)) ∧
    ("hi".data).length ≤ MAX_MESSAGE_LENGTH + 3 := by
  refine ⟨rfl, ?_⟩
  exact (delivered_length_bound 1
    { source := "t", prompt := "p", previewMessage := none,
      notifyOwner := false, silentMarker := none, resultPfx := none }
    (.ok ("hi".data)) ("hi".data) hbEnvOkBase []).1 rfl

/-! ## HeartbeatRunner start/stop/_loop timing (`src/heartbeat.py`)

`start()` spawns `_loop()`, whose first action is `await
asyncio.sleep(self._interval)` — the first check is deferred by one full
interval.  `stop()` sets `_running = False`, cancels the task and awaits
its cancellation before returning.  Time is discretised: one tick = one
second of sleeping; a check fires on the tick that consumes the last
second of a pending sleep (i.e. at time `interval`, never earlier), and
each fired check appends that check's events (all backend and transport
activity of the runner) to the accumulated trace. -/

/-- Runner state: the `_running` flag, the remaining sleep of the pending
loop task (`none` = no task / cancelled), the number of checks performed,
and the accumulated event trace of every check performed so far. -/
structure RunnerState where
  running : Bool
  pending : Option Nat
  checks : Nat
  trace : List Ev
deriving Repr

/-- Method `start()`: set `_running`, spawn `_loop()`, which immediately sleeps
one full interval. -/
def startHB (interval : Nat) : RunnerState :=
  ⟨true, some interval, 0, []⟩

/-- One second of wall-clock time.  A sleeping task counts down; when the
last second of the sleep is consumed the loop wakes: if `_running` it
performs one check and sleeps another interval, otherwise the loop
exits. -/
def tickHB (interval : Nat) (env : HBEnv) (s : RunnerState) : RunnerState :=
  match s.pending with
  | none => s
  | some 0 => s
  | some 1 =>
    if s.running then
      ⟨s.running, some interval, s.checks + 1,
        s.trace ++ (heartbeatCheckModel env).2⟩
    else ⟨s.running, none, s.checks, s.trace⟩
  | some (n + 2) => ⟨s.running, some (n + 1), s.checks, s.trace⟩

/-- Method `stop()`: clear `_running`, cancel the pending task and await its
cancellation — on return no task is pending. -/
def stopHB (s : RunnerState) : RunnerState :=
  ⟨false, none, s.checks, s.trace⟩

/-- Advance `n` seconds of wall-clock time. -/
def runTicks (interval : Nat) (env : HBEnv) : Nat → RunnerState → RunnerState
  | 0, s => s
  | n + 1, s => tickHB interval env (runTicks interval env n s)

theorem runTicks_early (interval : Nat) (env : HBEnv) :
    ∀ t, t < interval →
      runTicks interval env t (startHB interval) =
        ⟨true, some (interval - t), 0, []⟩ := by
  intro t
  induction t with
  | zero => intro h; simp [runTicks, startHB]
  | succ n ih =>
    intro h
    have hn : n < interval := Nat.lt_of_succ_lt h
    rw [runTicks, ih hn]
    have h2 : interval - n ≥ 2 := by omega
    obtain ⟨k, hk⟩ : ∃ k, interval - n = k + 2 :=
      ⟨interval - n - 2, by omega⟩
    rw [hk]
    show tickHB interval env ⟨true, some (k + 2), 0, []⟩ =
      ⟨true, some (interval - (n + 1)), 0, []⟩
    have h3 : interval - (n + 1) = k + 1 := by omega
    rw [h3]
    rfl

/-- C9: the heartbeat loop never performs its first check before one full
interval has elapsed after `start()` — after any `t < interval` seconds
the runner has performed zero checks and its trace is empty (no backend
call, no transport send); `stop()` at that point cancels the pending
sleep task (no task remains pending after it returns) and the stopped
runner still shows zero checks and an empty trace. -/
theorem heartbeat_no_early_check (interval : Nat) (env : HBEnv) (t : Nat)
    (h : t < interval) :
    (runTicks interval env t (startHB interval)).checks = 0 ∧
    (runTicks interval env t (startHB interval)).trace = [] ∧
    stopHB (runTicks interval env t (startHB interval)) =
      ⟨false, none, 0, []⟩ := by
  rw [runTicks_early interval env t h]
  exact ⟨rfl, rfl, rfl⟩

theorem heartbeat_no_early_check_w :
    (3 : Nat) < 60 ∧
    (runTicks 60 hbEnvOkBase 3 (startHB 60)).checks = 0 ∧
    (runTicks 60 hbEnvOkBase 3 (startHB 60)).trace = [] ∧
    stopHB (runTicks 60 hbEnvOkBase 3 (startHB 60)) =
      ⟨false, none, 0, []⟩ := by
  exact ⟨by decide, heartbeat_no_early_check 60 hbEnvOkBase 3 (by decide)⟩
